import Mathlib

/-!
Verification of the certificate lifecycle engine of `moolen/ingress-nginx`.

The development shallowly embeds three source files:

* `internal/net/ssl/ssl.go` — certificate building (`CreateSSLCert`,
  `CreateCACert`), SAN extension parsing (`parseSANExtension`), disk
  persistence (`StoreSSLCertOnDisk`, `ConfigureCACert`,
  `ConfigureCACertWithCertAndKey`, `AddOrUpdateDHParam`) and the hot-reloading
  TLS listener (`TLSListener`).
* `internal/ingress/controller/store/backend_ssl.go` — the secret
  synchronizer (`syncSecret`, `getPemCertificate`, `ErrSecretForAuth`).
* `rootfs/etc/nginx/lua/configuration.lua` — the push store's
  `handle_servers` endpoint.

Go byte slices and Go strings holding certificate names are modelled as
`List Nat` (a Go `string` is a byte slice; `string(v.Bytes)` is the identity
on bytes). File paths stay `String`. Calls into the Go standard library or
into external k8s libraries (PEM decoding, X.509 parsing, keypair matching,
chain verification, SHA-1) are modelled as explicit parameters holding the
library call's outcome; every piece of control flow belonging to the
repository itself is translated directly from the source.
-/

/-- Go byte slice (also a Go string). -/
abbrev Bytes := List Nat

/-! ## SAN extension parsing (`ssl.go`, `parseSANExtension`) -/

/-- An `asn1.RawValue` as produced by `asn1.Unmarshal`: tag, class, compound
flag and undecoded contents. -/
structure RawValue where
  tag : Nat
  cls : Nat
  isCompound : Bool
  bytes : Bytes
deriving DecidableEq, Repr

/-- The extension value handed to `parseSANExtension`, pre-tokenized at the
`asn1.Unmarshal` boundary (the unmarshaller is Go stdlib): the outer sequence
(`none` when the first `asn1.Unmarshal` fails), whether trailing data is left
after it, and the inner `GeneralName` tokens in order (`none` where the inner
`asn1.Unmarshal` fails). -/
structure SANExtValue where
  outer : Option RawValue
  trailing : Bool
  entries : List (Option RawValue)
deriving DecidableEq, Repr

/-- Errors returned by `parseSANExtension`. -/
inductive SANErr
  | unmarshalFailure
  | trailingData
  | badSANSequence
  | entryUnmarshalFailure
  | badIPLength (n : Nat)
deriving DecidableEq, Repr

/-- The `for len(rest) > 0` loop of `parseSANExtension`: tag 1 entries are
appended to `emailAddresses`, tag 2 entries to `dnsNames`, tag 7 entries to
`ipAddresses` when 4 or 16 bytes long (otherwise the loop returns the
IP-length error), all other tags are ignored. -/
def sanLoop : List (Option RawValue) → List Bytes → List Bytes → List Bytes →
    Except SANErr (List Bytes × List Bytes × List Bytes)
  | [], dnsNames, emails, ips => .ok (dnsNames, emails, ips)
  | none :: _, _, _, _ => .error .entryUnmarshalFailure
  | some v :: rest, dnsNames, emails, ips =>
    if v.tag = 1 then sanLoop rest dnsNames (emails ++ [v.bytes]) ips
    else if v.tag = 2 then sanLoop rest (dnsNames ++ [v.bytes]) emails ips
    else if v.tag = 7 then
      if v.bytes.length = 4 ∨ v.bytes.length = 16 then
        sanLoop rest dnsNames emails (ips ++ [v.bytes])
      else .error (.badIPLength v.bytes.length)
    else sanLoop rest dnsNames emails ips

/-- Model of `parseSANExtension` from `ssl.go`: unmarshal the outer value, reject
trailing data, require a universal compound SEQUENCE (tag 16, class 0), then
run the entry loop. -/
def parseSANExtension (v : SANExtValue) :
    Except SANErr (List Bytes × List Bytes × List Bytes) :=
  match v.outer with
  | none => .error .unmarshalFailure
  | some seq =>
    if v.trailing then .error .trailingData
    else if ¬seq.isCompound ∨ seq.tag ≠ 16 ∨ seq.cls ≠ 0 then .error .badSANSequence
    else sanLoop v.entries [] [] []

/-! ## `sets.String` (k8s.io/apimachinery) as used by `CreateSSLCert` -/

/-- Model of `sets.String.Insert`: add an element unless already present. -/
def ssInsert (s : List Bytes) (x : Bytes) : List Bytes :=
  if x ∈ s then s else s ++ [x]

/-- Model of `sets.String.List`: the members sorted ascending (`sort.Strings`, i.e.
lexicographic byte order). -/
def ssSortedList (s : List Bytes) : List Bytes :=
  List.insertionSort (· ≤ ·) s

/-- The `for _, dns := range ...` insertion loop of `CreateSSLCert`:
`if !cn.Has(dns) { cn.Insert(dns) }` over a list of names. -/
def insDNSNames (s : List Bytes) (ds : List Bytes) : List Bytes :=
  ds.foldl (fun acc d => if d ∈ acc then acc else ssInsert acc d) s

/-- The dNSName values a SAN extension contributes in `CreateSSLCert`:
the parsed `dns` list on success, nothing when `parseSANExtension` fails
(the error is logged and the extension skipped). -/
def sanDNSNames (ext : SANExtValue) : List Bytes :=
  match parseSANExtension ext with
  | .ok (dnsNames, _, _) => dnsNames
  | .error _ => []

/-- The `for _, ext := range getExtension(...)` loop of `CreateSSLCert`:
each extension is parsed; on error the loop continues, on success the
dNSName values are inserted. -/
def insSANExts (s : List Bytes) (exts : List SANExtValue) : List Bytes :=
  exts.foldl (fun acc ext =>
    match parseSANExtension ext with
    | .error _ => acc
    | .ok (dnsNames, _, _) => insDNSNames acc dnsNames) s

/-- The `CN` field computed by `CreateSSLCert`: start from
`sets.NewString(commonName)`, insert the parsed certificate's `DNSNames`,
insert each SAN extension's dNSName values, and return the sorted list. -/
def buildCommonNames (commonName : Bytes) (dnsNames : List Bytes)
    (sanExts : List SANExtValue) : List Bytes :=
  ssSortedList (insSANExts (insDNSNames (ssInsert [] commonName) dnsNames) sanExts)

/-! ## `CreateSSLCert` (`ssl.go`) -/

/-- The data `x509.ParseCertificate` yields from the leading PEM block, as
far as `CreateSSLCert` consumes it: `certId` stands for the identity of the
parsed `*x509.Certificate`. -/
structure ParsedCert where
  certId : Nat
  commonName : Bytes
  dnsNames : List Bytes
  sanExts : List SANExtValue
  notAfter : Nat
deriving DecidableEq, Repr

/-- The failure kinds of `CreateSSLCert` / `CreateCACert`. -/
inductive CreateErr
  | invalidPEM
  | wrongPEMType
  | parseFailure
  | certKeyMismatch
deriving DecidableEq, Repr

/-- The record produced by `CreateSSLCert` (`ingress.SSLCert` fields it
sets: `Certificate`, `CN`, `ExpireTime`, `PemCertKey`). -/
structure CertCore where
  certId : Nat
  cn : List Bytes
  expireTime : Nat
  pemCertKey : Bytes
deriving DecidableEq, Repr

/-- The byte written between certificate and key in the PEM buffer. -/
def newlineByte : Bytes := [10]

/-- Model of `CreateSSLCert` from `ssl.go`, with chain completion disabled
(`EnableSSLChainCompletion` is off by default; its branch only replaces the
buffer contents). The stdlib boundary is explicit: `pemType` is the type of
the first PEM block `pem.Decode` finds in the cert+newline+key buffer
(`none` when there is no block), `certParse` the outcome of
`x509.ParseCertificate` on it, `keyPairOk` whether `tls.X509KeyPair`
accepts the pair. Every subsequent step — the error ladder, the
common-name set and its sorted listing — is the source's own logic. -/
def createSSLCert (pemType : Option String) (certParse : Option ParsedCert)
    (keyPairOk : Bool) (cert key : Bytes) : Except CreateErr CertCore :=
  let pemCertBuffer := cert ++ newlineByte ++ key
  match pemType with
  | none => .error .invalidPEM
  | some t =>
    if t ≠ "CERTIFICATE" then .error .wrongPEMType
    else
      match certParse with
      | none => .error .parseFailure
      | some pc =>
        if keyPairOk = false then .error .certKeyMismatch
        else .ok { certId := pc.certId,
                   cn := buildCommonNames pc.commonName pc.dnsNames pc.sanExts,
                   expireTime := pc.notAfter,
                   pemCertKey := pemCertBuffer }

/-! ## Lemmas about the common-name set -/

theorem mem_ssInsert (s : List Bytes) (x a : Bytes) :
    a ∈ ssInsert s x ↔ a ∈ s ∨ a = x := by
  unfold ssInsert
  split
  · constructor
    · tauto
    · rintro (h | rfl) <;> assumption
  · simp [List.mem_append]

theorem nodup_ssInsert (s : List Bytes) (x : Bytes) (h : s.Nodup) :
    (ssInsert s x).Nodup := by
  unfold ssInsert
  split
  · exact h
  · simpa [List.nodup_append] using ⟨h, by assumption⟩

theorem mem_insDNSNames (ds : List Bytes) (s : List Bytes) (a : Bytes) :
    a ∈ insDNSNames s ds ↔ a ∈ s ∨ a ∈ ds := by
  induction ds generalizing s with
  | nil => simp [insDNSNames]
  | cons d ds ih =>
    unfold insDNSNames at *
    simp only [List.foldl_cons]
    rw [ih]
    constructor
    · rintro (h | h)
      · split at h
        · tauto
        · rcases (mem_ssInsert _ _ _).mp h with h | h
          · tauto
          · subst h; simp
      · simp_all
    · rintro (h | h)
      · left; split
        · exact h
        · exact (mem_ssInsert _ _ _).mpr (Or.inl h)
      · rcases List.mem_cons.mp h with h | h
        · subst h; left; split
          · assumption
          · exact (mem_ssInsert _ _ _).mpr (Or.inr rfl)
        · tauto

theorem nodup_insDNSNames (ds : List Bytes) (s : List Bytes) (h : s.Nodup) :
    (insDNSNames s ds).Nodup := by
  induction ds generalizing s with
  | nil => simpa [insDNSNames]
  | cons d ds ih =>
    unfold insDNSNames at *
    simp only [List.foldl_cons]
    apply ih
    split
    · exact h
    · exact nodup_ssInsert _ _ h

theorem insSANExts_body (acc : List Bytes) (ext : SANExtValue) :
    (match parseSANExtension ext with
      | .error _ => acc
      | .ok (dnsNames, _, _) => insDNSNames acc dnsNames) =
      insDNSNames acc (sanDNSNames ext) := by
  unfold sanDNSNames
  rcases h : parseSANExtension ext with e | ⟨d, em, ip⟩ <;> simp [insDNSNames]

/-- Helper normal form of `insSANExts` used by the lemmas below. -/
def insSANExtsAux (s : List Bytes) (exts : List SANExtValue) : List Bytes :=
  exts.foldl (fun acc ext => insDNSNames acc (sanDNSNames ext)) s

theorem insSANExts_eq (s : List Bytes) (exts : List SANExtValue) :
    insSANExts s exts = insSANExtsAux s exts := by
  unfold insSANExts insSANExtsAux
  congr 1
  funext acc ext
  exact insSANExts_body acc ext

theorem mem_insSANExtsAux (exts : List SANExtValue) (s : List Bytes) (a : Bytes) :
    a ∈ insSANExtsAux s exts ↔ a ∈ s ∨ ∃ ext ∈ exts, a ∈ sanDNSNames ext := by
  induction exts generalizing s with
  | nil => simp [insSANExtsAux]
  | cons ext exts ih =>
    unfold insSANExtsAux at *
    simp only [List.foldl_cons]
    rw [ih, mem_insDNSNames]
    constructor
    · rintro ((h | h) | ⟨e, he, ha⟩)
      · tauto
      · exact Or.inr ⟨ext, by simp, h⟩
      · exact Or.inr ⟨e, by simp [he], ha⟩
    · rintro (h | ⟨e, he, ha⟩)
      · tauto
      · rcases List.mem_cons.mp he with h | h
        · subst h; tauto
        · exact Or.inr ⟨e, h, ha⟩

theorem mem_insSANExts (exts : List SANExtValue) (s : List Bytes) (a : Bytes) :
    a ∈ insSANExts s exts ↔ a ∈ s ∨ ∃ ext ∈ exts, a ∈ sanDNSNames ext := by
  rw [insSANExts_eq]
  exact mem_insSANExtsAux exts s a

theorem nodup_insSANExts (exts : List SANExtValue) (s : List Bytes)
    (h : s.Nodup) : (insSANExts s exts).Nodup := by
  rw [insSANExts_eq]
  induction exts generalizing s with
  | nil => simpa [insSANExtsAux]
  | cons ext exts ih =>
    unfold insSANExtsAux at *
    simp only [List.foldl_cons]
    exact ih _ (nodup_insDNSNames _ _ h)

theorem ssSortedList_perm (s : List Bytes) : List.Perm (ssSortedList s) s :=
  List.perm_insertionSort _ s

theorem sorted_ssSortedList (s : List Bytes) :
    List.Sorted (· ≤ ·) (ssSortedList s) :=
  List.sorted_insertionSort _ s

theorem mem_buildCommonNames (commonName : Bytes) (dnsNames : List Bytes)
    (sanExts : List SANExtValue) (a : Bytes) :
    a ∈ buildCommonNames commonName dnsNames sanExts ↔
      a = commonName ∨ a ∈ dnsNames ∨ ∃ ext ∈ sanExts, a ∈ sanDNSNames ext := by
  unfold buildCommonNames
  rw [(ssSortedList_perm _).mem_iff, mem_insSANExts, mem_insDNSNames,
    mem_ssInsert]
  simp
  tauto

theorem nodup_buildCommonNames (commonName : Bytes) (dnsNames : List Bytes)
    (sanExts : List SANExtValue) :
    (buildCommonNames commonName dnsNames sanExts).Nodup := by
  unfold buildCommonNames
  rw [(ssSortedList_perm _).nodup_iff]
  exact nodup_insSANExts _ _ (nodup_insDNSNames _ _ (nodup_ssInsert _ _ (by simp)))

theorem sorted_buildCommonNames (commonName : Bytes) (dnsNames : List Bytes)
    (sanExts : List SANExtValue) :
    List.Sorted (· ≤ ·) (buildCommonNames commonName dnsNames sanExts) :=
  List.sorted_insertionSort _ _

theorem sanLoop_error_of_badIP (cls : Nat) (cpd : Bool) (bs : Bytes)
    (h4 : bs.length ≠ 4) (h16 : bs.length ≠ 16) :
    ∀ entries : List (Option RawValue),
      (some ⟨7, cls, cpd, bs⟩ : Option RawValue) ∈ entries →
      ∀ dns em ip, ∃ e, sanLoop entries dns em ip = .error e := by
  intro entries
  induction entries with
  | nil => intro hmem; cases hmem
  | cons hd tl ih =>
    intro hmem dns em ip
    rcases List.mem_cons.mp hmem with h | h
    · subst h
      exact ⟨.badIPLength bs.length, by simp [sanLoop, h4, h16]⟩
    · cases hd with
      | none => exact ⟨.entryUnmarshalFailure, rfl⟩
      | some v =>
        by_cases h1 : v.tag = 1
        · simp only [sanLoop, if_pos h1]
          exact ih h _ _ _
        · by_cases h2 : v.tag = 2
          · simp only [sanLoop, if_neg h1, if_pos h2]
            exact ih h _ _ _
          · by_cases h7 : v.tag = 7
            · by_cases hlen : v.bytes.length = 4 ∨ v.bytes.length = 16
              · simp only [sanLoop, if_neg h1, if_neg h2, if_pos h7, if_pos hlen]
                exact ih h _ _ _
              · exact ⟨.badIPLength v.bytes.length,
                  by simp [sanLoop, h1, h2, h7, hlen]⟩
            · simp only [sanLoop, if_neg h1, if_neg h2, if_neg h7]
              exact ih h _ _ _

theorem parseSAN_error_of_badIP (v : SANExtValue) (cls : Nat) (cpd : Bool)
    (bs : Bytes)
    (hmem : (some ⟨7, cls, cpd, bs⟩ : Option RawValue) ∈ v.entries)
    (h4 : bs.length ≠ 4) (h16 : bs.length ≠ 16) :
    ∃ e, parseSANExtension v = .error e := by
  rcases houter : v.outer with _ | seq
  · exact ⟨.unmarshalFailure, by simp [parseSANExtension, houter]⟩
  · by_cases ht : v.trailing
    · exact ⟨.trailingData, by simp [parseSANExtension, houter, ht]⟩
    · by_cases hs : ¬seq.isCompound ∨ seq.tag ≠ 16 ∨ seq.cls ≠ 0
      · exact ⟨.badSANSequence, by simp only [parseSANExtension, houter,
          if_neg ht, if_pos hs]⟩
      · obtain ⟨e, he⟩ := sanLoop_error_of_badIP cls cpd bs h4 h16 v.entries hmem [] [] []
        exact ⟨e, by simp only [parseSANExtension, houter, if_neg ht, if_neg hs, he]⟩

theorem sanDNSNames_of_error (ext : SANExtValue) (e : SANErr)
    (h : parseSANExtension ext = .error e) : sanDNSNames ext = [] := by
  simp [sanDNSNames, h]

/-- C1: for every well-formed certificate+key pair accepted by
`createSSLCert` (all SAN extensions parse), the record's `cn` is sorted
ascending (lexicographic byte order), has no duplicates, and its members are
exactly the union of the certificate's Subject CommonName and its SAN DNS
names (the parsed certificate's `DNSNames` together with the manually parsed
dNSName entries of every SAN extension). -/
theorem createSSLCert_cn_sorted_dedup_union
    (pemType : Option String) (certParse : Option ParsedCert) (keyPairOk : Bool)
    (cert key : Bytes) (pc : ParsedCert) (r : CertCore)
    (hpc : certParse = some pc)
    (hok : createSSLCert pemType certParse keyPairOk cert key = .ok r)
    (hwf : ∀ ext ∈ pc.sanExts, (parseSANExtension ext).isOk = true) :
    List.Sorted (· ≤ ·) r.cn ∧ r.cn.Nodup ∧
      ∀ x, x ∈ r.cn ↔
        (x = pc.commonName ∨ x ∈ pc.dnsNames ∨
          ∃ ext ∈ pc.sanExts, x ∈ sanDNSNames ext) := by
  subst hpc
  have hcn : r.cn = buildCommonNames pc.commonName pc.dnsNames pc.sanExts := by
    simp only [createSSLCert] at hok
    cases pemType with
    | none => cases hok
    | some t =>
      simp only [] at hok
      split at hok
      · cases hok
      · split at hok
        · cases hok
        · rw [Except.ok.injEq] at hok
          rw [← hok]
  rw [hcn]
  exact ⟨sorted_buildCommonNames _ _ _, nodup_buildCommonNames _ _ _,
    fun x => mem_buildCommonNames _ _ _ x⟩

/-- Concrete SAN extension holding one dNSName entry, for the C1 witness. -/
def c1ExtW : SANExtValue := ⟨some ⟨16, 0, true, []⟩, false, [some ⟨2, 0, false, [98]⟩]⟩

/-- Concrete parsed certificate for the C1 witness. -/
def c1ParsedW : ParsedCert := ⟨7, [99, 110], [[97]], [c1ExtW], 12⟩

/-- The record `createSSLCert` builds from `c1ParsedW`. -/
def c1CertW : CertCore := ⟨7, buildCommonNames [99, 110] [[97]] [c1ExtW], 12, [1, 10, 2]⟩

/-- Witness for C1 at a concrete certificate. -/
theorem createSSLCert_cn_sorted_dedup_union_witness :
    List.Sorted (· ≤ ·) c1CertW.cn ∧ c1CertW.cn.Nodup ∧
      ∀ x, x ∈ c1CertW.cn ↔
        (x = c1ParsedW.commonName ∨ x ∈ c1ParsedW.dnsNames ∨
          ∃ ext ∈ c1ParsedW.sanExts, x ∈ sanDNSNames ext) :=
  createSSLCert_cn_sorted_dedup_union (some "CERTIFICATE") (some c1ParsedW) true
    [1] [2] c1ParsedW c1CertW rfl rfl (by decide)

/-- A SAN extension whose single entry is an iPAddress (tag 7) of 5 bytes. -/
def c4BadExt : SANExtValue :=
  ⟨some ⟨16, 0, true, []⟩, false, [some ⟨7, 0, false, [10, 0, 0, 1, 1]⟩]⟩

/-- A parsed certificate whose only SAN extension is `c4BadExt`. -/
def c4ParsedW : ParsedCert := ⟨1, [99, 110], [], [c4BadExt], 0⟩

/-- C4 counterexample: on a certificate whose SAN extension contains an
iPAddress entry of 5 bytes, `parseSANExtension` does return the IP-length
error, but `createSSLCert` does not fail — it logs, skips the extension and
returns a successfully built record, contradicting the claim that
`CreateSSLCert` fails with a MalformedSAN error. -/
theorem createSSLCert_succeeds_on_malformed_IP_SAN :
    parseSANExtension c4BadExt = .error (.badIPLength 5) ∧
    createSSLCert (some "CERTIFICATE") (some c4ParsedW) true [1] [2]
      = .ok ⟨1, [[99, 110]], 0, [1, 10, 2]⟩ := by
  constructor
  · rfl
  · rfl

/-- C4 amended: for every certificate whose SAN extension contains an
iPAddress (tag 7) entry whose byte length is neither 4 nor 16,
`parseSANExtension` fails on that extension; `createSSLCert` itself does not
fail: provided the PEM/X.509/keypair stages succeed it returns a successfully
built record, with the failed extension contributing no names to `cn`. -/
theorem parseSAN_fails_on_malformed_IP_but_createSSLCert_succeeds
    (pc : ParsedCert) (cert key : Bytes) (ext : SANExtValue) (cls : Nat)
    (cpd : Bool) (bs : Bytes)
    (hmem : ext ∈ pc.sanExts)
    (hbad : (some ⟨7, cls, cpd, bs⟩ : Option RawValue) ∈ ext.entries)
    (h4 : bs.length ≠ 4) (h16 : bs.length ≠ 16) :
    (∃ e, parseSANExtension ext = .error e) ∧
    sanDNSNames ext = [] ∧
    ∃ r, createSSLCert (some "CERTIFICATE") (some pc) true cert key = .ok r ∧
      ∀ x, x ∈ r.cn ↔
        (x = pc.commonName ∨ x ∈ pc.dnsNames ∨
          ∃ e ∈ pc.sanExts, x ∈ sanDNSNames e) := by
  obtain ⟨e, he⟩ := parseSAN_error_of_badIP ext cls cpd bs hbad h4 h16
  refine ⟨⟨e, he⟩, sanDNSNames_of_error ext e he, ?_⟩
  refine ⟨{ certId := pc.certId,
            cn := buildCommonNames pc.commonName pc.dnsNames pc.sanExts,
            expireTime := pc.notAfter,
            pemCertKey := cert ++ newlineByte ++ key }, rfl, ?_⟩
  exact fun x => mem_buildCommonNames _ _ _ x

/-- Witness for the amended C4 at a concrete certificate. -/
theorem parseSAN_fails_on_malformed_IP_but_createSSLCert_succeeds_witness :
    (∃ e, parseSANExtension c4BadExt = .error e) ∧
    sanDNSNames c4BadExt = [] ∧
    ∃ r, createSSLCert (some "CERTIFICATE") (some c4ParsedW) true [1] [2] = .ok r ∧
      ∀ x, x ∈ r.cn ↔
        (x = c4ParsedW.commonName ∨ x ∈ c4ParsedW.dnsNames ∨
          ∃ e ∈ c4ParsedW.sanExts, x ∈ sanDNSNames e) :=
  parseSAN_fails_on_malformed_IP_but_createSSLCert_succeeds c4ParsedW [1] [2]
    c4BadExt 0 false [10, 0, 0, 1, 1] (by decide) (by decide) (by decide) (by decide)

/-- A SAN extension whose single entry is an rfc822Name (tag 1), the bytes
of the address a@b. -/
def c5EmailExt : SANExtValue :=
  ⟨some ⟨16, 0, true, []⟩, false, [some ⟨1, 0, false, [97, 64, 98]⟩]⟩

/-- A parsed certificate whose only SAN extension is `c5EmailExt`. -/
def c5ParsedW : ParsedCert := ⟨1, [99, 110], [], [c5EmailExt], 0⟩

/-- C5 counterexample: the rfc822Name value a@b is parsed by
`parseSANExtension` into the `emailAddresses` component, yet the record
`createSSLCert` builds has `cn` holding only the CommonName — the email is
not included, contradicting the claim that rfc822Name values are added to
`commonNames`. -/
theorem createSSLCert_discards_rfc822Names :
    parseSANExtension c5EmailExt = .ok ([], [[97, 64, 98]], []) ∧
    createSSLCert (some "CERTIFICATE") (some c5ParsedW) true [1] [2]
      = .ok ⟨1, [[99, 110]], 0, [1, 10, 2]⟩ ∧
    [97, 64, 98] ∉ ([[99, 110]] : List Bytes) := by
  refine ⟨rfl, rfl, by decide⟩

/-- C5 amended: `parseSANExtension` does collect rfc822Name (tag 1) values
into its `emailAddresses` result, but `createSSLCert` discards that
component: the built record's `cn` members are exactly the CommonName, the
certificate's DNS names and the SAN extensions' dNSName values, so a parsed
email address appears in `cn` only if it also occurs among those. -/
theorem createSSLCert_cn_has_no_email_only_names
    (pc : ParsedCert) (cert key : Bytes) (r : CertCore)
    (hok : createSSLCert (some "CERTIFICATE") (some pc) true cert key = .ok r) :
    (∀ x, x ∈ r.cn ↔
        (x = pc.commonName ∨ x ∈ pc.dnsNames ∨
          ∃ ext ∈ pc.sanExts, x ∈ sanDNSNames ext)) ∧
    ∀ ext ∈ pc.sanExts, ∀ dns emails ips,
      parseSANExtension ext = .ok (dns, emails, ips) →
      ∀ y ∈ emails, y ≠ pc.commonName → y ∉ pc.dnsNames →
        (∀ e ∈ pc.sanExts, y ∉ sanDNSNames e) → y ∉ r.cn := by
  have hred : createSSLCert (some "CERTIFICATE") (some pc) true cert key
      = .ok { certId := pc.certId,
              cn := buildCommonNames pc.commonName pc.dnsNames pc.sanExts,
              expireTime := pc.notAfter,
              pemCertKey := cert ++ newlineByte ++ key } := rfl
  rw [hred, Except.ok.injEq] at hok
  have hcn : r.cn = buildCommonNames pc.commonName pc.dnsNames pc.sanExts := by
    rw [← hok]
  rw [hcn]
  refine ⟨fun x => mem_buildCommonNames _ _ _ x, ?_⟩
  intro ext _ dns emails ips _ y _ hy1 hy2 hy3 hmem
  rcases (mem_buildCommonNames _ _ _ y).mp hmem with h | h | ⟨e, he, hye⟩
  · exact hy1 h
  · exact hy2 h
  · exact hy3 e he hye

/-- Witness for the amended C5 at a concrete certificate. -/
theorem createSSLCert_cn_has_no_email_only_names_witness :
    (∀ x, x ∈ ([[99, 110]] : List Bytes) ↔
        (x = c5ParsedW.commonName ∨ x ∈ c5ParsedW.dnsNames ∨
          ∃ ext ∈ c5ParsedW.sanExts, x ∈ sanDNSNames ext)) ∧
    ∀ ext ∈ c5ParsedW.sanExts, ∀ dns emails ips,
      parseSANExtension ext = .ok (dns, emails, ips) →
      ∀ y ∈ emails, y ≠ c5ParsedW.commonName → y ∉ c5ParsedW.dnsNames →
        (∀ e ∈ c5ParsedW.sanExts, y ∉ sanDNSNames e) →
        y ∉ ([[99, 110]] : List Bytes) :=
  createSSLCert_cn_has_no_email_only_names c5ParsedW [1] [2]
    ⟨1, [[99, 110]], 0, [1, 10, 2]⟩ rfl

/-! ## Filesystem model (`internal/file` boundary) -/

/-- Filesystem contents: path to file bytes, newest entry first. -/
abbrev FS := List (String × Bytes)

/-- Model of `fs.Create`: create or truncate a file (the model's filesystem is
healthy: creates and writes succeed, as in every code path the synchronizer
claims are about). -/
def fsCreate (fs : FS) (p : String) (content : Bytes) : FS :=
  (p, content) :: fs.filter (fun e => !(e.1 == p))

/-- Contents of a path, when present. -/
def fsLookup (fs : FS) (p : String) : Option Bytes :=
  (fs.find? (fun e => e.1 == p)).map (fun e => e.2)

/-- Model of `fs.ReadFile`: the bytes, or an error for a missing path. -/
def fsReadFile (fs : FS) (p : String) : Except String Bytes :=
  match fsLookup fs p with
  | some b => .ok b
  | none => .error "file does not exist"

/-- Model of `file.SHA1`: the checksum of the file at a path, the empty string when
the file cannot be read. `sha1` is the digest function itself (stdlib). -/
def fileSHA1 (sha1 : Bytes → String) (fs : FS) (p : String) : String :=
  match fsLookup fs p with
  | some b => sha1 b
  | none => ""

theorem fsLookup_fsCreate_self (fs : FS) (p : String) (c : Bytes) :
    fsLookup (fsCreate fs p c) p = some c := by
  simp [fsLookup, fsCreate, List.find?]

theorem fsCreate_fsCreate (fs : FS) (p : String) (a b : Bytes) :
    fsCreate (fsCreate fs p a) p b = fsCreate fs p b := by
  simp [fsCreate, List.filter_filter]

theorem fsReadFile_fsCreate_self (fs : FS) (p : String) (c : Bytes) :
    fsReadFile (fsCreate fs p c) p = .ok c := by
  simp [fsReadFile, fsLookup_fsCreate_self]

theorem fileSHA1_fsCreate_self (sha1 : Bytes → String) (fs : FS) (p : String)
    (c : Bytes) : fileSHA1 sha1 (fsCreate fs p c) p = sha1 c := by
  simp [fileSHA1, fsLookup_fsCreate_self]

/-! ## `ingress.SSLCert` and the persistence helpers (`ssl.go`) -/

/-- The `ingress.SSLCert` record as the synchronizer populates it. `certId`
stands for the parsed `*x509.Certificate`; `ns` is the `Namespace` field. -/
structure SSLCert where
  certId : Nat := 0
  cn : List Bytes := []
  expireTime : Nat := 0
  pemFileName : String := ""
  pemSHA : String := ""
  caFileName : String := ""
  pemCertKey : Bytes := []
  name : String := ""
  ns : String := ""
deriving DecidableEq, Repr

/-- Modelled from the spec: `ingress.SSLCert.Equal` (defined in the
repository's `types_equals.go`, which is not part of the sources here)
compares two records by full value equality — "full value equality of the
built record against the cached entry", "parsed certificate equality, not
just checksum". -/
def SSLCert.Equal (a b : SSLCert) : Bool := decide (a = b)

/-- Model of `file.DefaultSSLDirectory` (constant of `internal/file`). -/
def defaultSSLDirectory : String := "/etc/ingress-controller/ssl"

/-- Model of `getPemFileName` from `ssl.go`: absolute path and file name of the pem
file for a full secret name. -/
def getPemFileName (fullSecretName : String) : String × String :=
  let pemName := fullSecretName ++ ".pem"
  (defaultSSLDirectory ++ "/" ++ pemName, pemName)

/-- Model of `StoreSSLCertOnDisk` from `ssl.go`: write `PemCertKey` to the pem file
and set `PemFileName` and `PemSHA` on the record. -/
def storeSSLCertOnDisk (sha1 : Bytes → String) (fs : FS) (name : String)
    (sslCert : SSLCert) : FS × SSLCert :=
  let pemFileName := (getPemFileName name).1
  let fs1 := fsCreate fs pemFileName sslCert.pemCertKey
  (fs1, { sslCert with pemFileName := pemFileName,
                       pemSHA := fileSHA1 sha1 fs1 pemFileName })

/-- The synchronizer-level failure kinds (`backend_ssl.go` errors plus the
wrapped `ssl.go` ones). `secretForAuth` is `ErrSecretForAuth`; every other
constructor corresponds to a distinct `fmt.Errorf` site. -/
inductive SyncErr
  | listerNotFound
  | tlsCrtNil
  | tlsKeyNil
  | createCert (e : CreateErr)
  | chainVerificationFailed
  | readBundleFailed
  | createCA (e : CreateErr)
  | secretForAuth
  | noKeypairOrCA
deriving DecidableEq, Repr

/-- Model of `ConfigureCACertWithCertAndKey` from `ssl.go`: verify the serving
certificate against the CA (`verify` stands for
`verifyPemCertAgainstRootCA`, an x509 library call keyed by the parsed
certificate), re-read the stored bundle, rewrite it as bundle + newline +
ca, set `CAFileName` to the same path and recompute the checksum. -/
def configureCACertWithCertAndKey (sha1 : Bytes → String)
    (verify : Nat → Bytes → Bool) (fs : FS) (_name : String) (ca : Bytes)
    (sslCert : SSLCert) : Except SyncErr (FS × SSLCert) :=
  if verify sslCert.certId ca = false then .error .chainVerificationFailed
  else
    match fsReadFile fs sslCert.pemFileName with
    | .error _ => .error .readBundleFailed
    | .ok certAndKey =>
      let fs1 := fsCreate fs sslCert.pemFileName (certAndKey ++ newlineByte ++ ca)
      .ok (fs1, { sslCert with caFileName := sslCert.pemFileName,
                               pemSHA := fileSHA1 sha1 fs1 sslCert.pemFileName })

/-- Model of `ConfigureCACert` from `ssl.go`: write the CA bytes to a dedicated
`ca-<name>.pem` file and point both `PemFileName` and `CAFileName` at it,
recomputing the checksum. -/
def configureCACert (sha1 : Bytes → String) (fs : FS) (name : String)
    (ca : Bytes) (sslCert : SSLCert) : FS × SSLCert :=
  let caName := "ca-" ++ name ++ ".pem"
  let fileName := defaultSSLDirectory ++ "/" ++ caName
  let fs1 := fsCreate fs fileName ca
  (fs1, { sslCert with pemFileName := fileName,
                       caFileName := fileName,
                       pemSHA := fileSHA1 sha1 fs1 fileName })

/-- Model of `CreateCACert` from `ssl.go`: decode and parse the CA bytes (`caParse`
stands for the stdlib `pem.Decode` + type check + `x509.ParseCertificate`
pipeline) and build a record carrying only the parsed certificate — in
particular `CN` is empty. -/
def createCACert (caParse : Bytes → Except CreateErr Nat) (ca : Bytes) :
    Except CreateErr SSLCert :=
  match caParse ca with
  | .error e => .error e
  | .ok certId => .ok { certId := certId }

/-! ## The secret synchronizer (`backend_ssl.go`) -/

/-- A Go byte slice that may be nil: `none` is a nil slice. -/
abbrev GoBytes := Option Bytes

/-- Model of `len` of a possibly-nil Go byte slice. -/
def goLen : GoBytes → Nat
  | none => 0
  | some b => b.length

/-- A nil Go slice behaves as empty when its bytes are consumed. -/
def goBytes : GoBytes → Bytes
  | none => []
  | some b => b

/-- A Kubernetes secret as the lister returns it: object name, namespace
and the `Data` mapping. A key absent from `data` reads as a nil slice with
`ok = false`; a key present maps to a (possibly nil) slice. -/
structure Secret where
  name : String
  ns : String
  data : List (String × GoBytes)
deriving DecidableEq, Repr

/-- Model of `secret.Data[k]` with its `ok` flag: `none` when the key is absent. -/
def dataGet (s : Secret) (k : String) : Option GoBytes :=
  (s.data.find? (fun e => e.1 == k)).map (fun e => e.2)

/-- Model of `secret.Data[k]` without the `ok` flag: an absent key reads as nil. -/
def dataVal (s : Secret) (k : String) : GoBytes :=
  (dataGet s k).join

/-- Model of `strings.Replace(secretName, "/", "-", -1)`. -/
def sanitizeKey (secretName : String) : String :=
  String.mk (secretName.data.map (fun c => if c = '/' then '-' else c))

/-- The fixed collaborators `getPemCertificate` calls through: the builders
(with their stdlib parsing outcomes), the x509 chain verifier, the digest
function and the `EnableDynamicCertificates` flag. -/
structure BuildCfg where
  certBuild : Bytes → Bytes → Except CreateErr CertCore
  caParse : Bytes → Except CreateErr Nat
  verify : Nat → Bytes → Bool
  sha1 : Bytes → String
  enableDynamicCertificates : Bool

/-- Model of `ssl.CreateSSLCert` as called from the store: the `CertCore` it builds,
widened to a fresh `ingress.SSLCert` (file fields unset). -/
def runCreateSSLCert (certBuild : Bytes → Bytes → Except CreateErr CertCore)
    (cert key : Bytes) : Except CreateErr SSLCert :=
  match certBuild cert key with
  | .error e => .error e
  | .ok cc => .ok { certId := cc.certId, cn := cc.cn,
                    expireTime := cc.expireTime, pemCertKey := cc.pemCertKey }

/-- The `okcert && okkey` branch of `getPemCertificate`: build the keypair
record; persist it unless dynamic certificates are on and no CA is present;
append the CA bundle when a CA is present. Returns the filesystem as left
behind (writes persist even when a later step fails). -/
def keypairBranch (cfg : BuildCfg) (fs : FS) (nsSecName : String)
    (cert key : Bytes) (ca : GoBytes) : FS × Except SyncErr SSLCert :=
  match runCreateSSLCert cfg.certBuild cert key with
  | .error e => (fs, .error (.createCert e))
  | .ok sslCert =>
    let st :=
      if !cfg.enableDynamicCertificates || decide (goLen ca > 0) then
        storeSSLCertOnDisk cfg.sha1 fs nsSecName sslCert
      else (fs, sslCert)
    if goLen ca > 0 then
      match configureCACertWithCertAndKey cfg.sha1 cfg.verify st.1 nsSecName
          (goBytes ca) st.2 with
      | .error e => (st.1, .error e)
      | .ok (fs2, c2) => (fs2, .ok c2)
    else (st.1, .ok st.2)

/-- The CA-only branch of `getPemCertificate`: build the CA record and
persist it to the dedicated `ca-` file. -/
def caOnlyBranch (cfg : BuildCfg) (fs : FS) (nsSecName : String) (ca : Bytes) :
    FS × Except SyncErr SSLCert :=
  match createCACert cfg.caParse ca with
  | .error e => (fs, .error (.createCA e))
  | .ok c0 =>
    let r := configureCACert cfg.sha1 fs nsSecName ca c0
    (r.1, .ok r.2)

/-- Copy the owning secret's identity onto the record (`sslCert.Name = ...`,
`sslCert.Namespace = ...` at the end of `getPemCertificate`). -/
def finishCert (secret : Secret) (c : SSLCert) : SSLCert :=
  { c with name := secret.name, ns := secret.ns }

/-- Model of `getPemCertificate` from `backend_ssl.go`: fetch the secret, read
`tls.crt` / `tls.key` / `ca.crt` / `auth`, sanitize the key, and dispatch on
the secret's shape — keypair, CA-only, auth-only, or malformed. The
filesystem component carries every write performed before returning. -/
def getPemCertificate (cfg : BuildCfg) (fs : FS)
    (secrets : List (String × Secret)) (secretName : String) :
    FS × Except SyncErr SSLCert :=
  match (secrets.find? (fun e => e.1 == secretName)).map (fun e => e.2) with
  | none => (fs, .error .listerNotFound)
  | some secret =>
    let certOpt := dataGet secret "tls.crt"
    let keyOpt := dataGet secret "tls.key"
    let ca := dataVal secret "ca.crt"
    let auth := dataVal secret "auth"
    let nsSecName := sanitizeKey secretName
    match certOpt, keyOpt with
    | some certV, some keyV =>
      (match certV with
       | none => (fs, .error .tlsCrtNil)
       | some cert =>
         match keyV with
         | none => (fs, .error .tlsKeyNil)
         | some key =>
           let r := keypairBranch cfg fs nsSecName cert key ca
           (r.1, r.2.map (finishCert secret)))
    | _, _ =>
      if ca.isSome && decide (goLen ca > 0) then
        let r := caOnlyBranch cfg fs nsSecName (goBytes ca)
        (r.1, r.2.map (finishCert secret))
      else if auth.isSome then (fs, .error .secretForAuth)
      else (fs, .error .noKeypairOrCA)

/-- Model of `isErrSecretForAuth` from `backend_ssl.go`: `e == ErrSecretForAuth`. -/
def isErrSecretForAuth (e : SyncErr) : Bool := decide (e = SyncErr.secretForAuth)

/-- The local certificate cache (`sslStore`). -/
abbrev SSLStore := List (String × SSLCert)

/-- Model of `GetLocalSSLCert`: cache lookup. -/
def sslStoreGet (store : SSLStore) (k : String) : Option SSLCert :=
  (store.find? (fun e => e.1 == k)).map (fun e => e.2)

/-- Model of `sslStore.Add` / `sslStore.Update`: cache write. -/
def sslStorePut (store : SSLStore) (k : String) (c : SSLCert) : SSLStore :=
  (k, c) :: store.filter (fun e => !(e.1 == k))

/-- The state `syncSecret` acts on: the secret lister, the local
certificate cache and the certificate directory's filesystem. -/
structure StoreState where
  secrets : List (String × Secret)
  sslStore : SSLStore
  fs : FS
deriving Repr

/-- The observable effects of one `syncSecret` call: cache writes
(`Add`/`Update`), dummy update events pushed to `updateCh`
(`sendDummyEvent`), and warnings logged (`klog.Warningf`). -/
structure SyncEffects where
  cacheWrites : Nat
  events : Nat
  warnings : Nat
deriving DecidableEq, Repr

/-- Model of `syncSecret` from `backend_ssl.go`: build via `getPemCertificate`; on
error, warn unless it is `ErrSecretForAuth` and return; on success compare
against the cached record under full value equality, doing nothing when
equal and otherwise writing the cache and emitting one dummy event. -/
def syncSecret (cfg : BuildCfg) (st : StoreState) (key : String) :
    StoreState × SyncEffects :=
  let r := getPemCertificate cfg st.fs st.secrets key
  match r.2 with
  | .error e =>
    ({ st with fs := r.1 },
     { cacheWrites := 0, events := 0,
       warnings := if isErrSecretForAuth e then 0 else 1 })
  | .ok cert =>
    let st1 := { st with fs := r.1 }
    match sslStoreGet st1.sslStore key with
    | some cur =>
      if cur.Equal cert then (st1, { cacheWrites := 0, events := 0, warnings := 0 })
      else ({ st1 with sslStore := sslStorePut st1.sslStore key cert },
            { cacheWrites := 1, events := 1, warnings := 0 })
    | none =>
      ({ st1 with sslStore := sslStorePut st1.sslStore key cert },
       { cacheWrites := 1, events := 1, warnings := 0 })

theorem sslStoreGet_sslStorePut_self (store : SSLStore) (k : String)
    (c : SSLCert) : sslStoreGet (sslStorePut store k c) k = some c := by
  simp [sslStoreGet, sslStorePut, List.find?]

/-- C6: a secret with neither a complete tls.crt/tls.key pair nor a
non-empty ca.crt but with an auth field makes `getPemCertificate` fail with
`ErrSecretForAuth`; `syncSecret` then leaves the whole state (cache and
filesystem) unchanged, emits no event and logs no warning; and
`isErrSecretForAuth` distinguishes this error from every other failure
kind. -/
theorem syncSecret_authOnly_quiet
    (cfg : BuildCfg) (st : StoreState) (key : String) (secret : Secret)
    (hsec : (st.secrets.find? (fun e => e.1 == key)).map (fun e => e.2)
      = some secret)
    (hnokp : ¬((dataGet secret "tls.crt").isSome = true ∧
      (dataGet secret "tls.key").isSome = true))
    (hca : goLen (dataVal secret "ca.crt") = 0)
    (hauth : (dataVal secret "auth").isSome = true) :
    getPemCertificate cfg st.fs st.secrets key = (st.fs, .error .secretForAuth) ∧
    syncSecret cfg st key = (st, { cacheWrites := 0, events := 0, warnings := 0 }) ∧
    (∀ e, isErrSecretForAuth e = true ↔ e = .secretForAuth) := by
  have hgp : getPemCertificate cfg st.fs st.secrets key
      = (st.fs, .error .secretForAuth) := by
    simp only [getPemCertificate, hsec]
    rcases h1 : dataGet secret "tls.crt" with _ | v1
    · simp [h1, hca, hauth]
    · rcases h2 : dataGet secret "tls.key" with _ | v2
      · simp [h1, h2, hca, hauth]
      · exact absurd ⟨by simp [h1], by simp [h2]⟩ hnokp
  refine ⟨hgp, ?_, ?_⟩
  · simp [syncSecret, hgp, isErrSecretForAuth]
  · intro e
    simp [isErrSecretForAuth]

/-- Concrete configuration for the C6 witness. -/
def c6Cfg : BuildCfg :=
  ⟨fun _ _ => .error .invalidPEM, fun _ => .error .invalidPEM,
   fun _ _ => false, fun _ => "", false⟩

/-- Concrete auth-only secret for the C6 witness. -/
def c6Secret : Secret := ⟨"s", "ns", [("auth", some [104, 105])]⟩

/-- Concrete store state for the C6 witness. -/
def c6St : StoreState := ⟨[("ns/s", c6Secret)], [], []⟩

/-- Witness for C6 at a concrete auth-only secret. -/
theorem syncSecret_authOnly_quiet_witness :
    getPemCertificate c6Cfg c6St.fs c6St.secrets "ns/s"
      = (c6St.fs, .error .secretForAuth) ∧
    syncSecret c6Cfg c6St "ns/s"
      = (c6St, { cacheWrites := 0, events := 0, warnings := 0 }) ∧
    (∀ e, isErrSecretForAuth e = true ↔ e = .secretForAuth) :=
  syncSecret_authOnly_quiet c6Cfg c6St "ns/s" c6Secret rfl
    (by decide) (by decide) (by decide)

/-- C9: for a secret holding a valid keypair and no CA, with dynamic
certificate delivery enabled, `getPemCertificate` performs no filesystem
write and leaves the record's file fields unset, while `syncSecret` still
caches the record and emits exactly one notification. -/
theorem syncSecret_dynamic_no_disk_write
    (cfg : BuildCfg) (st : StoreState) (key : String) (secret : Secret)
    (certB keyB : Bytes) (cc : CertCore)
    (hsec : (st.secrets.find? (fun e => e.1 == key)).map (fun e => e.2)
      = some secret)
    (hcrt : dataGet secret "tls.crt" = some (some certB))
    (hkey : dataGet secret "tls.key" = some (some keyB))
    (hca : goLen (dataVal secret "ca.crt") = 0)
    (hdyn : cfg.enableDynamicCertificates = true)
    (hbuild : cfg.certBuild certB keyB = .ok cc)
    (hmiss : sslStoreGet st.sslStore key = none) :
    ∃ cert : SSLCert,
      getPemCertificate cfg st.fs st.secrets key = (st.fs, .ok cert) ∧
      cert.pemFileName = "" ∧ cert.pemSHA = "" ∧ cert.caFileName = "" ∧
      cert.cn = cc.cn ∧
      (syncSecret cfg st key).1.fs = st.fs ∧
      (syncSecret cfg st key).2 = { cacheWrites := 1, events := 1, warnings := 0 } ∧
      sslStoreGet (syncSecret cfg st key).1.sslStore key = some cert := by
  have hgp : getPemCertificate cfg st.fs st.secrets key
      = (st.fs, .ok (finishCert secret
          { certId := cc.certId, cn := cc.cn,
            expireTime := cc.expireTime, pemCertKey := cc.pemCertKey })) := by
    simp only [getPemCertificate, hsec, hcrt, hkey]
    simp [keypairBranch, runCreateSSLCert, hbuild, hdyn, hca, Except.map]
  refine ⟨finishCert secret
    { certId := cc.certId, cn := cc.cn,
      expireTime := cc.expireTime, pemCertKey := cc.pemCertKey },
    hgp, rfl, rfl, rfl, rfl, ?_, ?_, ?_⟩
  · simp [syncSecret, hgp, hmiss]
  · simp [syncSecret, hgp, hmiss]
  · simp [syncSecret, hgp, hmiss, sslStoreGet_sslStorePut_self]

/-- Concrete configuration (dynamic certificates on) for the C9 witness. -/
def c9Cfg : BuildCfg :=
  ⟨fun _ _ => .ok ⟨1, [[101, 120]], 9, [5, 6]⟩, fun _ => .error .invalidPEM,
   fun _ _ => true, fun _ => "digest", true⟩

/-- Concrete keypair secret for the C9 witness. -/
def c9Secret : Secret := ⟨"s", "ns", [("tls.crt", some [1]), ("tls.key", some [2])]⟩

/-- Concrete store state for the C9 witness. -/
def c9St : StoreState := ⟨[("ns/s", c9Secret)], [], []⟩

/-- Witness for C9 at a concrete secret. -/
theorem syncSecret_dynamic_no_disk_write_witness :
    ∃ cert : SSLCert,
      getPemCertificate c9Cfg c9St.fs c9St.secrets "ns/s" = (c9St.fs, .ok cert) ∧
      cert.pemFileName = "" ∧ cert.pemSHA = "" ∧ cert.caFileName = "" ∧
      cert.cn = [[101, 120]] ∧
      (syncSecret c9Cfg c9St "ns/s").1.fs = c9St.fs ∧
      (syncSecret c9Cfg c9St "ns/s").2
        = { cacheWrites := 1, events := 1, warnings := 0 } ∧
      sslStoreGet (syncSecret c9Cfg c9St "ns/s").1.sslStore "ns/s" = some cert :=
  syncSecret_dynamic_no_disk_write c9Cfg c9St "ns/s" c9Secret [1] [2]
    ⟨1, [[101, 120]], 9, [5, 6]⟩ rfl rfl rfl rfl rfl rfl rfl

/-- C8: for a secret holding only a non-empty ca.crt, `getPemCertificate`
builds a record with empty `cn`, writes a `ca-<sanitized-key>.pem` file
containing exactly the CA bytes, points both `PemFileName` and `CAFileName`
at it and recomputes the checksum over it; `syncSecret` caches the record
and emits one notification. -/
theorem syncSecret_caOnly_creates_ca_file
    (cfg : BuildCfg) (st : StoreState) (key : String) (secret : Secret)
    (caB : Bytes) (certId : Nat)
    (hsec : (st.secrets.find? (fun e => e.1 == key)).map (fun e => e.2)
      = some secret)
    (hnokp : ¬((dataGet secret "tls.crt").isSome = true ∧
      (dataGet secret "tls.key").isSome = true))
    (hca : dataVal secret "ca.crt" = some caB)
    (hne : 0 < caB.length)
    (hparse : cfg.caParse caB = .ok certId)
    (hmiss : sslStoreGet st.sslStore key = none) :
    ∃ cert : SSLCert,
      getPemCertificate cfg st.fs st.secrets key
        = (fsCreate st.fs
            (defaultSSLDirectory ++ "/" ++ ("ca-" ++ sanitizeKey key ++ ".pem")) caB,
           .ok cert) ∧
      cert.cn = [] ∧
      cert.pemFileName
        = defaultSSLDirectory ++ "/" ++ ("ca-" ++ sanitizeKey key ++ ".pem") ∧
      cert.caFileName = cert.pemFileName ∧
      cert.pemSHA = cfg.sha1 caB ∧
      fsLookup (syncSecret cfg st key).1.fs cert.pemFileName = some caB ∧
      (syncSecret cfg st key).2 = { cacheWrites := 1, events := 1, warnings := 0 } ∧
      sslStoreGet (syncSecret cfg st key).1.sslStore key = some cert := by
  have hgp : getPemCertificate cfg st.fs st.secrets key
      = (fsCreate st.fs
          (defaultSSLDirectory ++ "/" ++ ("ca-" ++ sanitizeKey key ++ ".pem")) caB,
         .ok (finishCert secret
           { certId := certId, cn := [], expireTime := 0,
             pemFileName :=
               defaultSSLDirectory ++ "/" ++ ("ca-" ++ sanitizeKey key ++ ".pem"),
             pemSHA := cfg.sha1 caB,
             caFileName :=
               defaultSSLDirectory ++ "/" ++ ("ca-" ++ sanitizeKey key ++ ".pem"),
             pemCertKey := [] })) := by
    simp only [getPemCertificate, hsec]
    rcases h1 : dataGet secret "tls.crt" with _ | v1
    · simp [h1, hca, hne, caOnlyBranch, createCACert, hparse, configureCACert,
        fileSHA1_fsCreate_self, Except.map, goBytes, goLen]
    · rcases h2 : dataGet secret "tls.key" with _ | v2
      · simp [h1, h2, hca, hne, caOnlyBranch, createCACert, hparse, configureCACert,
          fileSHA1_fsCreate_self, Except.map, goBytes, goLen]
      · exact absurd ⟨by simp [h1], by simp [h2]⟩ hnokp
  refine ⟨finishCert secret
    { certId := certId, cn := [], expireTime := 0,
      pemFileName :=
        defaultSSLDirectory ++ "/" ++ ("ca-" ++ sanitizeKey key ++ ".pem"),
      pemSHA := cfg.sha1 caB,
      caFileName :=
        defaultSSLDirectory ++ "/" ++ ("ca-" ++ sanitizeKey key ++ ".pem"),
      pemCertKey := [] },
    hgp, rfl, rfl, rfl, rfl, ?_, ?_, ?_⟩
  · simp [syncSecret, hgp, hmiss, finishCert, fsLookup_fsCreate_self]
  · simp [syncSecret, hgp, hmiss]
  · simp [syncSecret, hgp, hmiss, sslStoreGet_sslStorePut_self]

/-- Concrete configuration for the C8 witness. -/
def c8Cfg : BuildCfg :=
  ⟨fun _ _ => .error .invalidPEM, fun _ => .ok 3, fun _ _ => false,
   fun _ => "casha", false⟩

/-- Concrete CA-only secret for the C8 witness. -/
def c8Secret : Secret := ⟨"s", "ns", [("ca.crt", some [7, 8])]⟩

/-- Concrete store state for the C8 witness. -/
def c8St : StoreState := ⟨[("ns/s", c8Secret)], [], []⟩

/-- Witness for C8 at a concrete CA-only secret. -/
theorem syncSecret_caOnly_creates_ca_file_witness :
    ∃ cert : SSLCert,
      getPemCertificate c8Cfg c8St.fs c8St.secrets "ns/s"
        = (fsCreate c8St.fs
            (defaultSSLDirectory ++ "/" ++ ("ca-" ++ sanitizeKey "ns/s" ++ ".pem")) [7, 8],
           .ok cert) ∧
      cert.cn = [] ∧
      cert.pemFileName
        = defaultSSLDirectory ++ "/" ++ ("ca-" ++ sanitizeKey "ns/s" ++ ".pem") ∧
      cert.caFileName = cert.pemFileName ∧
      cert.pemSHA = c8Cfg.sha1 [7, 8] ∧
      fsLookup (syncSecret c8Cfg c8St "ns/s").1.fs cert.pemFileName = some [7, 8] ∧
      (syncSecret c8Cfg c8St "ns/s").2
        = { cacheWrites := 1, events := 1, warnings := 0 } ∧
      sslStoreGet (syncSecret c8Cfg c8St "ns/s").1.sslStore "ns/s" = some cert :=
  syncSecret_caOnly_creates_ca_file c8Cfg c8St "ns/s" c8Secret [7, 8] 3
    rfl (by decide) rfl (by decide) rfl rfl

theorem keypairBranch_idem (cfg : BuildCfg) (fs : FS) (n : String)
    (cert key : Bytes) (ca : GoBytes) (fs' : FS) (c : SSLCert)
    (h : keypairBranch cfg fs n cert key ca = (fs', .ok c)) :
    keypairBranch cfg fs' n cert key ca = (fs', .ok c) := by
  rcases hrc : runCreateSSLCert cfg.certBuild cert key with e | sc
  · simp [keypairBranch, hrc] at h
  · by_cases hca : goLen ca > 0
    · simp only [keypairBranch, hrc, hca, decide_true_eq_true, Bool.or_true,
        if_pos, if_true, storeSSLCertOnDisk, configureCACertWithCertAndKey,
        fsReadFile_fsCreate_self, fileSHA1_fsCreate_self, fsCreate_fsCreate] at h ⊢
      by_cases hv : cfg.verify sc.certId (goBytes ca) = false
      · simp [hv] at h
      · simp [hv] at h ⊢
        obtain ⟨h1, h2⟩ := h
        subst h1
        subst h2
        exact ⟨fsCreate_fsCreate _ _ _ _, rfl⟩
    · by_cases hdy : cfg.enableDynamicCertificates = true
      · simp [keypairBranch, hrc, hca, hdy] at h ⊢
        obtain ⟨h1, h2⟩ := h
        subst h1
        subst h2
        rfl
      · have hdy' : cfg.enableDynamicCertificates = false := by
          revert hdy; cases cfg.enableDynamicCertificates <;> simp
        simp [keypairBranch, hrc, hca, hdy', storeSSLCertOnDisk,
          fileSHA1_fsCreate_self] at h ⊢
        obtain ⟨h1, h2⟩ := h
        subst h1
        subst h2
        exact ⟨fsCreate_fsCreate _ _ _ _, rfl⟩

theorem caOnlyBranch_idem (cfg : BuildCfg) (fs : FS) (n : String) (ca : Bytes)
    (fs' : FS) (c : SSLCert)
    (h : caOnlyBranch cfg fs n ca = (fs', .ok c)) :
    caOnlyBranch cfg fs' n ca = (fs', .ok c) := by
  rcases hcp : createCACert cfg.caParse ca with e | c0
  · simp [caOnlyBranch, hcp] at h
  · simp [caOnlyBranch, hcp, configureCACert, fileSHA1_fsCreate_self] at h ⊢
    obtain ⟨h1, h2⟩ := h
    subst h1
    subst h2
    exact ⟨fsCreate_fsCreate _ _ _ _, rfl⟩

theorem getPemCertificate_idem (cfg : BuildCfg) (fs : FS)
    (secrets : List (String × Secret)) (key : String) (fs' : FS) (c : SSLCert)
    (h : getPemCertificate cfg fs secrets key = (fs', .ok c)) :
    getPemCertificate cfg fs' secrets key = (fs', .ok c) := by
  rcases hsec : (secrets.find? (fun e => e.1 == key)).map (fun e => e.2)
    with _ | secret
  · simp [getPemCertificate, hsec] at h
  · rcases h1 : dataGet secret "tls.crt" with _ | v1
    · simp only [getPemCertificate, hsec, h1] at h ⊢
      cases hcab : (dataVal secret "ca.crt").isSome
          && decide (goLen (dataVal secret "ca.crt") > 0)
      · simp only [hcab, Bool.false_eq_true, if_false] at h
        split at h <;> simp at h
      · simp only [hcab, if_true] at h ⊢
        rcases hco : caOnlyBranch cfg fs (sanitizeKey key)
          (goBytes (dataVal secret "ca.crt")) with ⟨fs1, res⟩
        rcases res with e | c0
        · simp [hco, Except.map] at h
        · simp only [hco, Except.map] at h
          simp only [Prod.mk.injEq, Except.ok.injEq] at h
          obtain ⟨hf, hc⟩ := h
          subst hf
          subst hc
          simp [caOnlyBranch_idem cfg fs (sanitizeKey key) _ _ _ hco, Except.map]
    · rcases h2 : dataGet secret "tls.key" with _ | v2
      · simp only [getPemCertificate, hsec, h1, h2] at h ⊢
        cases hcab : (dataVal secret "ca.crt").isSome
            && decide (goLen (dataVal secret "ca.crt") > 0)
        · simp only [hcab, Bool.false_eq_true, if_false] at h
          split at h <;> simp at h
        · simp only [hcab, if_true] at h ⊢
          rcases hco : caOnlyBranch cfg fs (sanitizeKey key)
            (goBytes (dataVal secret "ca.crt")) with ⟨fs1, res⟩
          rcases res with e | c0
          · simp [hco, Except.map] at h
          · simp only [hco, Except.map] at h
            simp only [Prod.mk.injEq, Except.ok.injEq] at h
            obtain ⟨hf, hc⟩ := h
            subst hf
            subst hc
            simp [caOnlyBranch_idem cfg fs (sanitizeKey key) _ _ _ hco, Except.map]
      · rcases v1 with _ | certB
        · simp [getPemCertificate, hsec, h1, h2] at h
        · rcases v2 with _ | keyB
          · simp [getPemCertificate, hsec, h1, h2] at h
          · simp only [getPemCertificate, hsec, h1, h2] at h ⊢
            rcases hkb : keypairBranch cfg fs (sanitizeKey key) certB keyB
              (dataVal secret "ca.crt") with ⟨fs1, res⟩
            rcases res with e | c0
            · simp [hkb, Except.map] at h
            · simp only [hkb, Except.map] at h
              simp only [Prod.mk.injEq, Except.ok.injEq] at h
              obtain ⟨hf, hc⟩ := h
              subst hf
              subst hc
              simp [keypairBranch_idem cfg fs (sanitizeKey key) certB keyB _ _ _ hkb,
                Except.map]

/-- C2: on a secret whose content is unchanged, two consecutive `syncSecret`
calls perform exactly one cache write and one notification on the first call
(the record is not yet cached) and none on the second: the rebuilt record is
value-equal to the cached one, so the second call changes nothing at all. -/
theorem syncSecret_idempotent_on_unchanged
    (cfg : BuildCfg) (st : StoreState) (key : String) (fs' : FS) (cert : SSLCert)
    (hget : getPemCertificate cfg st.fs st.secrets key = (fs', .ok cert))
    (hmiss : sslStoreGet st.sslStore key = none) :
    (syncSecret cfg st key).2 = { cacheWrites := 1, events := 1, warnings := 0 } ∧
    (syncSecret cfg (syncSecret cfg st key).1 key).2
      = { cacheWrites := 0, events := 0, warnings := 0 } ∧
    (syncSecret cfg (syncSecret cfg st key).1 key).1 = (syncSecret cfg st key).1 := by
  have h1 : syncSecret cfg st key
      = ({ secrets := st.secrets, sslStore := sslStorePut st.sslStore key cert,
           fs := fs' },
         { cacheWrites := 1, events := 1, warnings := 0 }) := by
    simp [syncSecret, hget, hmiss]
  have hget2 : getPemCertificate cfg fs' st.secrets key = (fs', .ok cert) :=
    getPemCertificate_idem cfg st.fs st.secrets key fs' cert hget
  have h2 : syncSecret cfg
      { secrets := st.secrets, sslStore := sslStorePut st.sslStore key cert,
        fs := fs' } key
      = ({ secrets := st.secrets, sslStore := sslStorePut st.sslStore key cert,
           fs := fs' },
         { cacheWrites := 0, events := 0, warnings := 0 }) := by
    simp [syncSecret, hget2, sslStoreGet_sslStorePut_self, SSLCert.Equal]
  rw [h1]
  simp [h2]

/-- Concrete configuration (dynamic delivery on, so the filesystem is
untouched) for the C2 witness. -/
def c2Cfg : BuildCfg :=
  ⟨fun _ _ => .ok ⟨1, [[97]], 9, [5]⟩, fun _ => .error .invalidPEM,
   fun _ _ => true, fun _ => "sha", true⟩

/-- Concrete keypair secret for the C2 witness. -/
def c2Secret : Secret := ⟨"s", "ns", [("tls.crt", some [1]), ("tls.key", some [2])]⟩

/-- Concrete store state for the C2 witness. -/
def c2St : StoreState := ⟨[("ns/s", c2Secret)], [], []⟩

/-- The record the C2 witness synchronizes. -/
def c2Cert : SSLCert := ⟨1, [[97]], 9, "", "", "", [5], "s", "ns"⟩

/-- Witness for C2 at a concrete secret. -/
theorem syncSecret_idempotent_on_unchanged_witness :
    (syncSecret c2Cfg c2St "ns/s").2 = { cacheWrites := 1, events := 1, warnings := 0 } ∧
    (syncSecret c2Cfg (syncSecret c2Cfg c2St "ns/s").1 "ns/s").2
      = { cacheWrites := 0, events := 0, warnings := 0 } ∧
    (syncSecret c2Cfg (syncSecret c2Cfg c2St "ns/s").1 "ns/s").1
      = (syncSecret c2Cfg c2St "ns/s").1 :=
  syncSecret_idempotent_on_unchanged c2Cfg c2St "ns/s" c2St.fs c2Cert rfl rfl

/-! ## The hot-reloading TLS listener (`ssl.go`, `TLSListener`) -/

/-- A `tls.Certificate` value: `chain` is the certificate chain, `keyId`
stands for the private key. The zero value (what `var cert tls.Certificate`
declares before a failed `X509KeyPair`) is `⟨[], 0⟩`. -/
structure TLSKeypair where
  chain : List Bytes
  keyId : Nat
deriving DecidableEq, Repr

/-- The zero `tls.Certificate`: the empty keypair. -/
def zeroKeypair : TLSKeypair := ⟨[], 0⟩

/-- The shared state of a `TLSListener`: the `certificate` pointer (`none`
is a nil pointer) and the last error. -/
structure TLSListenerState where
  certificate : Option TLSKeypair
  err : Option String
deriving DecidableEq, Repr

/-- Model of `TLSListener.load` from `ssl.go`: read both files (a failed read sets
the nil-certificate/error pair and leaves the bytes nil), then call
`tls.X509KeyPair` (stdlib, passed in as `x509KeyPair`) and unconditionally
overwrite both fields with its certificate-and-error result — on a parse
failure the stored certificate is the zero value, never the previous one. -/
def tlsListenerLoad (x509KeyPair : Bytes → Bytes → Except String TLSKeypair)
    (readCert readKey : Except String Bytes) (tl : TLSListenerState) :
    TLSListenerState :=
  let certBytes := match readCert with | .ok b => b | .error _ => []
  let tl1 := match readCert with
    | .ok _ => tl
    | .error e => { certificate := none, err := some e }
  let keyBytes := match readKey with | .ok b => b | .error _ => []
  let tl2 := match readKey with
    | .ok _ => tl1
    | .error e => { certificate := none, err := some e }
  match x509KeyPair certBytes keyBytes with
  | .ok kp => { tl2 with certificate := some kp, err := none }
  | .error e => { tl2 with certificate := some zeroKeypair, err := some e }

/-- Model of `TLSListener.GetCertificate` from `ssl.go`: return the current
certificate pointer and the stored error. -/
def tlsListenerGetCertificate (tl : TLSListenerState) :
    Option TLSKeypair × Option String :=
  (tl.certificate, tl.err)

/-- C3: after a reload in which both files read back but the keypair fails
to parse, the handshake-time accessor returns the reload error together with
the empty (zero) keypair, whatever keypair the listener held before — the
previously valid keypair is never returned. -/
theorem tlsListener_fails_closed_after_bad_reload
    (x509KeyPair : Bytes → Bytes → Except String TLSKeypair)
    (certBytes keyBytes : Bytes) (e : String) (tl : TLSListenerState)
    (hfail : x509KeyPair certBytes keyBytes = .error e) :
    tlsListenerGetCertificate
        (tlsListenerLoad x509KeyPair (.ok certBytes) (.ok keyBytes) tl)
      = (some zeroKeypair, some e) ∧
    ∀ kp : TLSKeypair, kp ≠ zeroKeypair →
      (tlsListenerGetCertificate
          (tlsListenerLoad x509KeyPair (.ok certBytes) (.ok keyBytes) tl)).1
        ≠ some kp := by
  constructor
  · simp [tlsListenerGetCertificate, tlsListenerLoad, hfail]
  · intro kp hkp
    simp [tlsListenerGetCertificate, tlsListenerLoad, hfail]
    exact fun hh => hkp hh.symm

/-- Witness for C3: a listener holding a previously valid keypair, reloaded
against a parser that rejects the new bytes. -/
theorem tlsListener_fails_closed_after_bad_reload_witness :
    tlsListenerGetCertificate
        (tlsListenerLoad (fun _ _ => .error "tls: failed to parse private key")
          (.ok [1]) (.ok [2]) ⟨some ⟨[[3]], 5⟩, none⟩)
      = (some zeroKeypair, some "tls: failed to parse private key") ∧
    ∀ kp : TLSKeypair, kp ≠ zeroKeypair →
      (tlsListenerGetCertificate
          (tlsListenerLoad (fun _ _ => .error "tls: failed to parse private key")
            (.ok [1]) (.ok [2]) ⟨some ⟨[[3]], 5⟩, none⟩)).1
        ≠ some kp :=
  tlsListener_fails_closed_after_bad_reload
    (fun _ _ => .error "tls: failed to parse private key") [1] [2]
    "tls: failed to parse private key" ⟨some ⟨[[3]], 5⟩, none⟩ rfl

/-! ## `AddOrUpdateDHParam` (`ssl.go`) -/

/-- A decoded PEM block: its type label and payload. -/
structure PemBlock where
  ptype : String
  body : Bytes
deriving DecidableEq, Repr

/-- Outcomes of the filesystem calls `AddOrUpdateDHParam` makes, in program
order: writing the temp file, closing it, reading it back, and renaming it
onto the target (`fs.TempFile` itself is taken to succeed — on its failure
the source dereferences a nil handle before checking the error). -/
structure DHOracle where
  writeOk : Bool
  closeOk : Bool
  readOk : Bool
  renameOk : Bool
deriving DecidableEq, Repr

/-- What one `AddOrUpdateDHParam` run did: whether it returned a path or an
error, whether `fs.RemoveAll` on the temp file was scheduled (the `defer`),
and whether the temp file was renamed onto the deterministic target path. -/
structure DHOutcome where
  ok : Bool
  resultPath : String
  removalScheduled : Bool
  renamedToTarget : Bool
deriving DecidableEq, Repr

/-- Model of `AddOrUpdateDHParam` from `ssl.go`: write the bytes to a temp file,
close it, only then `defer fs.RemoveAll(temp)` — a failed write or close
returns before the removal is scheduled — read the file back, require the
decoded PEM block (`pemDecode` is the stdlib decoder) to have type
"DH PARAMETERS", and finally rename the temp file onto the target path. -/
def addOrUpdateDHParam (pemDecode : Bytes → Option PemBlock) (name : String)
    (dh : Bytes) (o : DHOracle) : DHOutcome :=
  let _pemFileName := (getPemFileName name).1
  if o.writeOk = false then
    { ok := false, resultPath := "", removalScheduled := false,
      renamedToTarget := false }
  else if o.closeOk = false then
    { ok := false, resultPath := "", removalScheduled := false,
      renamedToTarget := false }
  else if o.readOk = false then
    { ok := false, resultPath := "", removalScheduled := true,
      renamedToTarget := false }
  else
    match pemDecode dh with
    | none =>
      { ok := false, resultPath := "", removalScheduled := true,
        renamedToTarget := false }
    | some pemBlock =>
      if pemBlock.ptype ≠ "DH PARAMETERS" then
        { ok := false, resultPath := "", removalScheduled := true,
          renamedToTarget := false }
      else if o.renameOk = false then
        { ok := false, resultPath := "", removalScheduled := true,
          renamedToTarget := false }
      else
        { ok := true, resultPath := (getPemFileName name).1,
          removalScheduled := true, renamedToTarget := true }

/-- C7 counterexample: when the temp-file write fails, `AddOrUpdateDHParam`
returns before the `defer fs.RemoveAll` is registered, so the temp file is
not scheduled for removal — refuting "in every outcome the temporary file is
scheduled for removal". -/
theorem addOrUpdateDHParam_write_failure_skips_removal :
    addOrUpdateDHParam (fun b => some ⟨"DH PARAMETERS", b⟩) "dh" [1, 2]
        ⟨false, true, true, true⟩
      = { ok := false, resultPath := "", removalScheduled := false,
          renamedToTarget := false } := rfl

/-- C7 amended: on bytes whose decoded PEM type is not "DH PARAMETERS",
`addOrUpdateDHParam` fails and never renames anything onto the deterministic
target path; and in every outcome that gets past the temp-file write and
close, the temp file is scheduled for removal (on a write or close failure
the function returns before the `defer` is registered). -/
theorem addOrUpdateDHParam_wrong_type_fails_no_target
    (pemDecode : Bytes → Option PemBlock) (name : String) (dh : Bytes)
    (o : DHOracle) (pemBlock : PemBlock)
    (hw : o.writeOk = true) (hc : o.closeOk = true) (hr : o.readOk = true)
    (hdec : pemDecode dh = some pemBlock)
    (hty : pemBlock.ptype ≠ "DH PARAMETERS") :
    addOrUpdateDHParam pemDecode name dh o
      = { ok := false, resultPath := "", removalScheduled := true,
          renamedToTarget := false } ∧
    ∀ (pd : Bytes → Option PemBlock) (nm : String) (dh2 : Bytes) (o2 : DHOracle),
      o2.writeOk = true → o2.closeOk = true →
      (addOrUpdateDHParam pd nm dh2 o2).removalScheduled = true := by
  constructor
  · simp [addOrUpdateDHParam, hw, hc, hr, hdec, hty]
  · intro pd nm dh2 o2 hw2 hc2
    simp [addOrUpdateDHParam, hw2, hc2]
    repeat' split
    all_goals rfl

/-- Witness for the amended C7: a PEM block of the wrong type on a healthy
filesystem. -/
theorem addOrUpdateDHParam_wrong_type_fails_no_target_witness :
    addOrUpdateDHParam (fun b => some ⟨"CERTIFICATE", b⟩) "dh" [1, 2]
        ⟨true, true, true, true⟩
      = { ok := false, resultPath := "", removalScheduled := true,
          renamedToTarget := false } ∧
    ∀ (pd : Bytes → Option PemBlock) (nm : String) (dh2 : Bytes) (o2 : DHOracle),
      o2.writeOk = true → o2.closeOk = true →
      (addOrUpdateDHParam pd nm dh2 o2).removalScheduled = true :=
  addOrUpdateDHParam_wrong_type_fails_no_target
    (fun b => some ⟨"CERTIFICATE", b⟩) "dh" [1, 2] ⟨true, true, true, true⟩
    ⟨"CERTIFICATE", [1, 2]⟩ rfl rfl rfl rfl (by decide)

/-! ## The push store endpoint (`configuration.lua`, `handle_servers`) -/

/-- The `sslCert` sub-table of a decoded server entry: `pemCertKey` is
`none` when the field is absent (Lua nil). -/
structure LuaSSLCert where
  pemCertKey : Option String
deriving DecidableEq, Repr

/-- One decoded server entry: `hostname` and `sslCert` are `none` when the
fields are absent from the JSON object (Lua nil). -/
structure LuaServer where
  hostname : Option String
  sslCert : Option LuaSSLCert
deriving DecidableEq, Repr

/-- Result of `certificate_data:set(hostname, pem)`: success (with the
forcible-eviction flag) or failure with an error message. -/
inductive SetRes
  | ok (forcible : Bool)
  | fail (msg : String)

/-- Observable outcome of `handle_servers`: the HTTP status set, the number
of "hostname or pemCertKey are not present" warnings logged, and the
(hostname, pem) pairs stored in the shared dictionary. -/
structure HSOutcome where
  status : Nat
  warnings : Nat
  stored : List (String × String)
deriving DecidableEq, Repr

/-- The `for _, server in ipairs(servers)` loop of `handle_servers`. The
condition `server.hostname and server.sslCert.pemCertKey` short-circuits: a
nil `hostname` falls to the warning branch, but a present `hostname` with a
nil `sslCert` table indexes nil — a Lua runtime error, modelled as
`Except.error`. A failed set appends to `err_buf` and continues. -/
def hsLoop (setRes : String → String → SetRes) :
    List LuaServer → List String → Nat → List (String × String) →
    Except Unit (List String × Nat × List (String × String))
  | [], errBuf, warns, stored => .ok (errBuf, warns, stored)
  | server :: rest, errBuf, warns, stored =>
    match server.hostname with
    | none => hsLoop setRes rest errBuf (warns + 1) stored
    | some h =>
      match server.sslCert with
      | none => .error ()
      | some sslCert =>
        match sslCert.pemCertKey with
        | none => hsLoop setRes rest errBuf (warns + 1) stored
        | some pem =>
          match setRes h pem with
          | .ok _forcible => hsLoop setRes rest errBuf warns (stored ++ [(h, pem)])
          | .fail msg => hsLoop setRes rest (errBuf ++ [msg]) warns stored

/-- Model of `handle_servers` from `configuration.lua`: reject non-POST with 400,
reject an undecodable body with 400 (`decoded` is the `cjson.decode`
result, `none` on failure), run the entry loop, then 500 when `err_buf` is
non-empty and 201 otherwise. -/
def handleServers (setRes : String → String → SetRes) (method : String)
    (decoded : Option (List LuaServer)) : Except Unit HSOutcome :=
  if method ≠ "POST" then
    .ok { status := 400, warnings := 0, stored := [] }
  else
    match decoded with
    | none => .ok { status := 400, warnings := 0, stored := [] }
    | some servers =>
      match hsLoop setRes servers [] 0 [] with
      | .error e => .error e
      | .ok (errBuf, warns, stored) =>
        if errBuf.length > 0 then
          .ok { status := 500, warnings := warns, stored := stored }
        else
          .ok { status := 201, warnings := warns, stored := stored }

/-- C10 counterexample: a POST whose body decodes to a one-element list
whose entry has a hostname but no `sslCert` object — an entry "lacking an
sslCert.pemCertKey field" — is not skipped with a warning: indexing the nil
`sslCert` raises a Lua runtime error and no 201 response is produced. -/
theorem handleServers_nil_sslCert_errors :
    handleServers (fun _ _ => .ok false) "POST"
        (some [{ hostname := some "h", sslCert := none }])
      = .error () := rfl

/-- C10 amended: entries lacking a hostname, or carrying an `sslCert` table
without a `pemCertKey`, are skipped with only a warning; provided every
entry with a hostname also carries an `sslCert` table and every performed
set succeeds, the response is 201 Created — also when every entry was
skipped and nothing was stored. (An entry with a hostname but no `sslCert`
table instead raises a Lua runtime error.) -/
theorem handleServers_created_when_sets_succeed
    (setRes : String → String → SetRes) (servers : List LuaServer)
    (hshape : ∀ s ∈ servers, s.hostname.isSome → s.sslCert.isSome)
    (hsets : ∀ h p, ∃ forcible, setRes h p = .ok forcible) :
    ∃ out, handleServers setRes "POST" (some servers) = .ok out ∧
      out.status = 201 := by
  have hloop : ∀ (ss : List LuaServer) (warns : Nat)
      (stored : List (String × String)),
      (∀ s ∈ ss, s.hostname.isSome → s.sslCert.isSome) →
      ∃ warns2 stored2, hsLoop setRes ss [] warns stored
        = .ok ([], warns2, stored2) := by
    intro ss
    induction ss with
    | nil => exact fun warns stored _ => ⟨warns, stored, rfl⟩
    | cons server rest ih =>
      intro warns stored hsh
      have hrest : ∀ s ∈ rest, s.hostname.isSome → s.sslCert.isSome :=
        fun s hs => hsh s (List.mem_cons_of_mem _ hs)
      rcases hh : server.hostname with _ | h
      · obtain ⟨w2, s2, hw⟩ := ih (warns + 1) stored hrest
        exact ⟨w2, s2, by simp [hsLoop, hh, hw]⟩
      · have hcert : server.sslCert.isSome := by
          apply hsh server (List.mem_cons_self _ _)
          simp [hh]
        rcases hcrt : server.sslCert with _ | sslCert
        · rw [hcrt] at hcert; cases hcert
        · rcases hpem : sslCert.pemCertKey with _ | pem
          · obtain ⟨w2, s2, hw⟩ := ih (warns + 1) stored hrest
            exact ⟨w2, s2, by simp [hsLoop, hh, hcrt, hpem, hw]⟩
          · obtain ⟨forcible, hset⟩ := hsets h pem
            obtain ⟨w2, s2, hw⟩ := ih warns (stored ++ [(h, pem)]) hrest
            exact ⟨w2, s2, by simp [hsLoop, hh, hcrt, hpem, hset, hw]⟩
  obtain ⟨w2, s2, hw⟩ := hloop servers 0 [] hshape
  exact ⟨{ status := 201, warnings := w2, stored := s2 },
    by simp [handleServers, hw], rfl⟩

/-- Witness for the amended C10: one skipped entry (no hostname), one
stored entry, every set succeeding. -/
theorem handleServers_created_when_sets_succeed_witness :
    ∃ out, handleServers (fun _ _ => .ok false) "POST"
        (some [{ hostname := none, sslCert := none },
               { hostname := some "h",
                 sslCert := some { pemCertKey := some "pem" } }])
      = .ok out ∧ out.status = 201 :=
  handleServers_created_when_sets_succeed (fun _ _ => .ok false)
    [{ hostname := none, sslCert := none },
     { hostname := some "h", sslCert := some { pemCertKey := some "pem" } }]
    (by decide) (fun h p => ⟨false, rfl⟩)
